import Mathlib

/-!
Shallow embedding of `packages/fuels-programs/src/call_utils.rs`.

Machine integers (`u64`, `usize`) are modelled as `Nat`; wrapping casts such as
`as Word` are made explicit inside the byte serializers, which truncate to the
serialized width.  The 32-byte identifier types of the external `fuel-tx` crate
(`AssetId`, `ContractId`, `Bytes32`, addresses) are modelled as `Nat` values
below `2^256`, serialized big-endian, which matches the lexicographic byte
order the Rust types use for comparisons.
-/

namespace FuelsCallUtils

/-- Big-endian serialization of `v` into exactly `n` bytes (truncating to the
low `n` bytes, as a Rust integer cast does). -/
def beBytes : Nat → Nat → List Nat
  | 0, _ => []
  | n + 1, v => beBytes n (v / 256) ++ [v % 256]

/-- `u64::to_be_bytes`. -/
def u64be (v : Nat) : List Nat := beBytes 8 v

/-- The 32 bytes of an `AssetId` / `ContractId` / `Bytes32`. -/
def bytes32be (v : Nat) : List Nat := beBytes 32 v

/-- `fuels_core::constants::WORD_SIZE`. -/
def WORD_SIZE : Nat := 8

theorem beBytes_length (n v : Nat) : (beBytes n v).length = n := by
  induction n generalizing v with
  | zero => rfl
  | succ n ih => simp [beBytes, ih]

theorem u64be_length (v : Nat) : (u64be v).length = 8 := beBytes_length 8 v

theorem bytes32be_length (v : Nat) : (bytes32be v).length = 32 := beBytes_length 32 v

/-- `fuel_abi_types::error_codes::FAILED_TRANSFER_TO_ADDRESS_SIGNAL` (external
crate constant; its exact numeric value is irrelevant to the properties proved
here, only its identity as a distinguished revert code). -/
def FAILED_TRANSFER_TO_ADDRESS_SIGNAL : Nat := 0xffffffffffff0001

/-- `fuel_tx::PanicReason`, collapsed to the one variant `call_utils.rs`
inspects plus a catch-all. -/
inductive PanicReason where
  | contractNotInInputs : PanicReason
  | otherReason (code : Nat) : PanicReason
deriving DecidableEq, Repr

/-- `fuel_tx::Receipt`, collapsed to the fields `call_utils.rs` matches on:
`Revert { ra, .. }` and `Panic { reason, contract_id, .. }`; every other
variant behaves like `otherReceipt`. -/
inductive Receipt where
  | revert (ra : Nat) : Receipt
  | panicked (reason : PanicReason) (contract_id : Option Nat) : Receipt
  | otherReceipt (tag : Nat) : Receipt
deriving DecidableEq, Repr

/-- `fuels_core` `ParamType`, opaque here: `get_single_call_instructions`
ignores its `_output_param_type` argument. -/
inductive ParamType where
  | unit : ParamType
  | otherParam (tag : Nat) : ParamType
deriving DecidableEq, Repr

/-- `fuel_tx::Output` variants produced or inspected by `call_utils.rs`.
`contract` carries `(input_index, balance_root, state_root)`; the `recipient`
field models the Rust field named `to`. -/
inductive Output where
  | contract (input_index : Nat) (balance_root : Nat) (state_root : Nat) : Output
  | coin (recipient : Nat) (amount : Nat) (asset_id : Nat) : Output
  | change (recipient : Nat) (amount : Nat) (asset_id : Nat) : Output
  | variable (recipient : Nat) (amount : Nat) (asset_id : Nat) : Output
deriving DecidableEq, Repr

/-- `fuels_core` `CoinType`: a spendable resource, either a coin (with an
asset id) or a message (which has no asset id of its own). -/
inductive CoinType where
  | coin (utxo : Nat × Nat) (owner : Nat) (amount : Nat) (asset_id : Nat) : CoinType
  | message (sender : Nat) (recipient : Nat) (amount : Nat) (nonce : Nat) : CoinType
deriving DecidableEq, Repr

/-- `CoinType::coin_asset_id`: `Some` for coins, `None` for messages. -/
def CoinType.coin_asset_id : CoinType → Option Nat
  | .coin _ _ _ asset_id => some asset_id
  | .message _ _ _ _ => none

/-- `fuels_core` `Input`: the variants matched by `call_utils.rs`.
`contract` carries `(utxo_id, balance_root, state_root, tx_pointer,
contract_id)`; `utxo_id` is a `(tx hash, output index)` pair. -/
inductive Input where
  | resourceSigned (resource : CoinType) : Input
  | resourcePredicate (resource : CoinType) (code : List Nat) (data : List Nat) : Input
  | contract (utxo_id : Nat × Nat) (balance_root : Nat) (state_root : Nat)
      (tx_pointer : Nat) (contract_id : Nat) : Input
deriving DecidableEq, Repr

/-- `CallParameters` (from `fuels-programs`' `contract` module, outside
`src/`): the three accessors used by `call_utils.rs`. -/
structure CallParameters where
  amount : Nat
  asset_id : Option Nat
  gas_forwarded : Option Nat
deriving DecidableEq, Repr

/-- `crate::contract::ContractCall` (struct itself lives outside `src/`; its
fields are those constructed in the `call_utils.rs` test module).
`encoded_args` models `Result<UnresolvedBytes>` together with
`UnresolvedBytes::resolve`: `some f` is an `Ok` buffer whose resolution at
absolute offset `o` yields `f o`; `none` is an `Err` value.
`custom_assets` is the `(asset id, optional recipient) ↦ amount` map,
modelled as an association list. -/
structure ContractCall where
  contract_id : Nat
  encoded_args : Option (Nat → List Nat)
  encoded_selector : List Nat
  call_parameters : CallParameters
  compute_custom_input_offset : Bool
  variable_outputs : List Output
  external_contracts : List Nat
  output_param : ParamType
  is_payable : Bool
  custom_assets : List ((Nat × Option Nat) × Nat)

/-- `CallOpcodeParamsOffset`. -/
structure CallOpcodeParamsOffset where
  call_data_offset : Nat
  amount_offset : Nat
  asset_id_offset : Nat
  gas_forwarded_offset : Option Nat
deriving DecidableEq, Repr

/-- `DEFAULT_TX_DEP_ESTIMATION_ATTEMPTS`. -/
def DEFAULT_TX_DEP_ESTIMATION_ATTEMPTS : Nat := 10

/-! ## Instructions (`fuel_asm` crate, external)

A fuel VM instruction is one 32-bit word, serialized as 4 big-endian bytes:
opcode (8 bits) followed by 6-bit register fields and an immediate.  The
`call_utils.rs` code uses `op::movi`, `op::lw`, `op::call` and `op::ret`. -/

inductive Instr where
  | movi (ra : Nat) (imm : Nat) : Instr
  | lw (ra : Nat) (rb : Nat) (imm : Nat) : Instr
  | call (ra : Nat) (rb : Nat) (rc : Nat) (rd : Nat) : Instr
  | ret (ra : Nat) : Instr
deriving DecidableEq, Repr

/-- `RegId::CGAS` (register 10) and `RegId::ONE` (register 1). -/
def REG_CGAS : Nat := 10

def REG_ONE : Nat := 1

/-- The 32-bit word of an instruction (models the external `fuel-asm`
encoding: 8-bit opcode, 6-bit register fields, 18/12-bit immediates). -/
def instrWord : Instr → Nat
  | .movi ra imm => 0x72 * 2 ^ 24 + ra % 64 * 2 ^ 18 + imm % 2 ^ 18
  | .lw ra rb imm => 0x5d * 2 ^ 24 + ra % 64 * 2 ^ 18 + rb % 64 * 2 ^ 12 + imm % 2 ^ 12
  | .call ra rb rc rd =>
      0x2d * 2 ^ 24 + ra % 64 * 2 ^ 18 + rb % 64 * 2 ^ 12 + rc % 64 * 2 ^ 6 + rd % 64
  | .ret ra => 0x24 * 2 ^ 24 + ra % 64 * 2 ^ 18

/-- `Instruction::to_bytes`: 4 big-endian bytes. -/
def instrToBytes (i : Instr) : List Nat := beBytes 4 (instrWord i)

theorem instrToBytes_length (i : Instr) : (instrToBytes i).length = 4 :=
  beBytes_length 4 (instrWord i)

/-- `get_single_call_instructions`: the fixed call sequence, with the extra
`movi`/`lw` pair when a gas-forwarded offset is present, serialized to
bytes. -/
def get_single_call_instructions (offsets : CallOpcodeParamsOffset)
    (_output_param_type : ParamType) : List Nat :=
  let base : List Instr :=
    [.movi 0x10 offsets.call_data_offset,
     .movi 0x11 offsets.amount_offset,
     .lw 0x11 0x11 0,
     .movi 0x12 offsets.asset_id_offset]
  let instructions : List Instr :=
    match offsets.gas_forwarded_offset with
    | some gas_forwarded_offset =>
        base ++ [.movi 0x13 gas_forwarded_offset,
                 .lw 0x13 0x13 0,
                 .call 0x10 0x11 0x12 0x13]
    | none => base ++ [.call 0x10 0x11 0x12 REG_CGAS]
  (instructions.map instrToBytes).flatten

/-- The placeholder offsets used by `compute_calls_instructions_len`:
`CallOpcodeParamsOffset::default()` with `gas_forwarded_offset = Some(0)`
exactly when the call forwards gas. -/
def placeholderOffsets (c : ContractCall) : CallOpcodeParamsOffset :=
  { call_data_offset := 0
    amount_offset := 0
    asset_id_offset := 0
    gas_forwarded_offset :=
      if c.call_parameters.gas_forwarded.isSome then some 0 else none }

/-- `compute_calls_instructions_len` (total here: the Rust `Result` is always
`Ok`, since `get_single_call_instructions` never returns `Err`). -/
def compute_calls_instructions_len (calls : List ContractCall) : Nat :=
  (calls.map fun c =>
    (get_single_call_instructions (placeholderOffsets c) c.output_param).length).sum

/-- `get_instructions`: per-call instruction bytes in order, then
`op::ret(RegId::ONE)`. -/
def get_instructions (calls : List ContractCall)
    (offsets : List CallOpcodeParamsOffset) : List Nat :=
  (((calls.zip offsets).map fun co =>
      get_single_call_instructions co.2 co.1.output_param).flatten)
    ++ instrToBytes (.ret REG_ONE)

/-! ## Script data layout (`build_script_data_from_contract_calls`) -/

/-- The loop body of `build_script_data_from_contract_calls`, carrying the
accumulated `script_data` and `param_offsets`.  In the Rust loop,
`segment_offset` equals `data_offset + script_data.len()` at the start of
every iteration (initially `data_offset`, re-established at the end of each
iteration).  `none` models the `Err` return when a call's `encoded_args` is
an `Err` value. -/
def buildScriptDataLoop (data_offset : Nat) (base_asset_id : Nat) :
    List ContractCall → List Nat → List CallOpcodeParamsOffset →
    Option (List Nat × List CallOpcodeParamsOffset)
  | [], script_data, param_offsets => some (script_data, param_offsets)
  | call :: rest, script_data, param_offsets =>
    let segment_offset := data_offset + script_data.length
    let amount_offset := segment_offset
    let asset_id_offset := amount_offset + WORD_SIZE
    let call_data_offset := asset_id_offset + 32
    let encoded_selector_offset := call_data_offset + 32 + 2 * WORD_SIZE
    let encoded_args_offset := encoded_selector_offset + call.encoded_selector.length
    match call.encoded_args with
    | none => none
    | some resolve =>
      let encoded_args := resolve encoded_args_offset
      let segment :=
        u64be call.call_parameters.amount
        ++ bytes32be (call.call_parameters.asset_id.getD base_asset_id)
        ++ bytes32be call.contract_id
        ++ u64be encoded_selector_offset
        ++ u64be encoded_args_offset
        ++ call.encoded_selector
        ++ encoded_args
        ++ (match call.call_parameters.gas_forwarded with
            | some gf => u64be gf
            | none => [])
      let gas_forwarded_offset := call.call_parameters.gas_forwarded.map fun _ =>
        encoded_args_offset + encoded_args.length
      buildScriptDataLoop data_offset base_asset_id rest (script_data ++ segment)
        (param_offsets ++
          [⟨call_data_offset, amount_offset, asset_id_offset, gas_forwarded_offset⟩])

/-- `build_script_data_from_contract_calls`. -/
def build_script_data_from_contract_calls (calls : List ContractCall)
    (data_offset : Nat) (base_asset_id : Nat) :
    Option (List Nat × List CallOpcodeParamsOffset) :=
  buildScriptDataLoop data_offset base_asset_id calls [] []

/-! ## Asset aggregation

`itertools`' `group_by` groups *consecutive* elements with equal keys, without
sorting.  `sumRuns` is its embedding (followed by the `map`+`sum` the code
applies to each group): one output entry per maximal run of consecutive equal
keys, carrying the sum of the amounts in the run. -/

/-- Merge a new `(key, amount)` entry into an already-grouped tail: if the
tail starts with the same key the amounts fuse into one run, otherwise a new
run begins. -/
def mergeRun {κ : Type} [DecidableEq κ] (a : κ) (n : Nat) :
    List (κ × Nat) → List (κ × Nat)
  | [] => [(a, n)]
  | q :: tail => if a = q.1 then (a, n + q.2) :: tail else (a, n) :: q :: tail

def sumRuns {κ : Type} [DecidableEq κ] : List (κ × Nat) → List (κ × Nat)
  | [] => []
  | p :: rest => mergeRun p.1 p.2 (sumRuns rest)

/-- The key-indexed total of an association list: the sum of all amounts
carried by entries with key `a`. -/
def keySum {κ : Type} [DecidableEq κ] (a : κ) (l : List (κ × Nat)) : Nat :=
  ((l.filter fun p => decide (p.1 = a)).map fun p => p.2).sum

/-- `sum_up_amounts_for_each_asset_id`: sort by asset id, group consecutive
equal ids, sum each group.  (`sorted_by_key` is a stable sort; after sorting,
`group_by` merges every occurrence of an id into one group.) -/
def sum_up_amounts_for_each_asset_id (amounts_per_asset_id : List (Nat × Nat)) :
    List (Nat × Nat) :=
  sumRuns (amounts_per_asset_id.insertionSort fun p q => p.1 ≤ q.1)

/-- `calculate_required_asset_amounts`: one `(asset, amount)` pair per call
(base asset substituted when the call names none), the custom-asset transfer
amounts grouped by asset id (consecutively — `group_by` again), all merged
and totalled per asset id. -/
def calculate_required_asset_amounts (calls : List ContractCall)
    (base_asset_id : Nat) : List (Nat × Nat) :=
  let call_param_assets := calls.map fun call =>
    (call.call_parameters.asset_id.getD base_asset_id, call.call_parameters.amount)
  let custom_assets :=
    sumRuns ((calls.flatMap fun call => call.custom_assets).map fun custom =>
      (custom.1.1, custom.2))
  sum_up_amounts_for_each_asset_id (call_param_assets ++ custom_assets)

/-! ## Inputs and outputs (`get_transaction_inputs_outputs` and helpers)

Rust `HashSet`s are modelled as first-occurrence deduplicated lists; none of
the verified properties depends on the set's iteration order. -/

/-- The body of `extract_unique_asset_ids`' `filter_map` closure: resource
inputs yield their coin asset id (or the base asset id for messages),
non-resource inputs yield nothing. -/
def inputResourceAsset (base_asset_id : Nat) : Input → Option Nat
  | .resourceSigned resource => some (resource.coin_asset_id.getD base_asset_id)
  | .resourcePredicate resource _ _ => some (resource.coin_asset_id.getD base_asset_id)
  | .contract _ _ _ _ _ => none

/-- `extract_unique_asset_ids`: the distinct asset ids of the resource inputs
(messages count as the base asset id); non-resource inputs contribute
nothing. -/
def extract_unique_asset_ids (asset_inputs : List Input) (base_asset_id : Nat) :
    List Nat :=
  (asset_inputs.filterMap (inputResourceAsset base_asset_id)).dedup

/-- `extract_unique_contract_ids`: each call's external contracts plus its
primary target, deduplicated. -/
def extract_unique_contract_ids (calls : List ContractCall) : List Nat :=
  (calls.flatMap fun call => call.external_contracts ++ [call.contract_id]).dedup

/-- The output (if any) of one summed custom-asset group: a coin output when
the group's key carries a recipient, nothing otherwise. -/
def customOutputOf (group : (Nat × Option Nat) × Nat) : Option Output :=
  match group.1.2 with
  | some address => some (.coin address group.2 group.1.1)
  | none => none

/-- `generate_custom_outputs`: `group_by` (consecutive!) over the flattened
`(asset id, optional recipient) ↦ amount` transfers of all calls, one summed
coin output per group with a recipient, nothing for recipient-less groups. -/
def generate_custom_outputs (calls : List ContractCall) : List Output :=
  (sumRuns (calls.flatMap fun call => call.custom_assets)).filterMap customOutputOf

/-- `extract_variable_outputs`: all calls' pre-declared variable outputs,
concatenated in call order. -/
def extract_variable_outputs (calls : List ContractCall) : List Output :=
  calls.flatMap fun call => call.variable_outputs

/-- `generate_asset_change_outputs`: one zero-amount change output per asset
id, directed to the wallet address. -/
def generate_asset_change_outputs (wallet_address : Nat) (asset_ids : List Nat) :
    List Output :=
  asset_ids.map fun asset_id => .change wallet_address 0 asset_id

/-- `generate_contract_outputs`: `Output::contract(idx, zeroed, zeroed)` for
`idx` in `0..num_of_contracts`. -/
def generate_contract_outputs (num_of_contracts : Nat) : List Output :=
  (List.range num_of_contracts).map fun idx => .contract idx 0 0

/-- `generate_contract_inputs`: enumerated contract inputs with the synthetic
`UtxoId::new(Bytes32::zeroed(), idx)` and zeroed roots/pointer. -/
def generate_contract_inputs (contract_ids : List Nat) : List Input :=
  contract_ids.enum.map fun p => .contract (0, p.1) 0 0 0 p.2

/-- `get_transaction_inputs_outputs`. -/
def get_transaction_inputs_outputs (calls : List ContractCall)
    (asset_inputs : List Input) (address : Nat) (base_asset_id : Nat) :
    List Input × List Output :=
  let asset_ids := extract_unique_asset_ids asset_inputs base_asset_id
  let contract_ids := extract_unique_contract_ids calls
  let num_of_contracts := contract_ids.length
  (generate_contract_inputs contract_ids ++ asset_inputs,
   generate_contract_outputs num_of_contracts
     ++ generate_asset_change_outputs address asset_ids
     ++ generate_custom_outputs calls
     ++ extract_variable_outputs calls)

/-! ## Receipt inspection and the dependency-resolution loop -/

/-- `is_missing_output_variables`: some receipt is a revert whose `ra` is the
failed-transfer-to-address signal. -/
def is_missing_output_variables (receipts : List Receipt) : Bool :=
  receipts.any fun r =>
    match r with
    | .revert ra => ra == FAILED_TRANSFER_TO_ADDRESS_SIGNAL
    | _ => false

/-- `find_id_of_missing_contract`: the contract id of the first panic receipt
whose reason is `ContractNotInInputs`.  The Rust code `expect`s the carried
`Option` to be `Some`; a (never expected) `None` is modelled by the default
id `0`. -/
def find_id_of_missing_contract (receipts : List Receipt) : Option Nat :=
  receipts.findSome? fun receipt =>
    match receipt with
    | .panicked reason contract_id =>
        if reason = .contractNotInInputs then some (contract_id.getD 0) else none
    | _ => none

/-- The two mutating builder methods of the `TxDependencyExtension` trait,
whose implementations live outside `src/` (the trait's default methods below
are generic over them, exactly as the Rust default methods are generic over
`Self`). -/
structure TxDepOps (S : Type) where
  append_variable_outputs : S → Nat → S
  append_contract : S → Nat → S

/-- `TxDependencyExtension::append_missing_dependencies` (trait default
method). -/
def append_missing_dependencies {S : Type} (ops : TxDepOps S) (s : S)
    (receipts : List Receipt) : S :=
  let s1 := if is_missing_output_variables receipts
            then ops.append_variable_outputs s 1 else s
  match find_id_of_missing_contract receipts with
  | some contract_id => ops.append_contract s1 contract_id
  | none => s1

/-- One `Error` as matched by `estimate_tx_dependencies`:
`Error::Transaction(Reason::Reverted { receipts, .. })` versus everything
else (any other error variant or transaction reason). -/
inductive SdkError where
  | transactionReverted (receipts : List Receipt) : SdkError
  | otherError (code : Nat) : SdkError
deriving DecidableEq, Repr

/-- The loop of `estimate_tx_dependencies`.  `simulate` outcomes are supplied
by `oracle`, indexed by how many simulations have run so far (`k`); the first
component of the result is the Rust return value, the second the total number
of `simulate` invocations.  Fuel `n` is the remaining iteration count of
`for _ in 0..attempts`; at `0` the trailing `self.simulate().await.map(|_| self)`
runs. -/
def estimateGo {S : Type} (ops : TxDepOps S) (oracle : Nat → Except SdkError Unit) :
    Nat → Nat → S → Except SdkError S × Nat
  | 0, k, s =>
    match oracle k with
    | .ok _ => (.ok s, k + 1)
    | .error e => (.error e, k + 1)
  | n + 1, k, s =>
    match oracle k with
    | .ok _ => (.ok s, k + 1)
    | .error (.transactionReverted receipts) =>
        estimateGo ops oracle n (k + 1) (append_missing_dependencies ops s receipts)
    | .error e => (.error e, k + 1)

/-- `TxDependencyExtension::estimate_tx_dependencies` (trait default method),
plus an instrumentation counter for the number of `simulate` calls. -/
def estimate_tx_dependencies {S : Type} (ops : TxDepOps S)
    (oracle : Nat → Except SdkError Unit) (max_attempts : Option Nat) (s : S) :
    Except SdkError S × Nat :=
  estimateGo ops oracle (max_attempts.getD DEFAULT_TX_DEP_ESTIMATION_ATTEMPTS) 0 s

/-- Modelled from the spec: a concrete implementor of the dependency-extension
capability (the call-handler types implementing the trait live outside
`src/`).  Per the spec's interface description, `append_variable_outputs num`
appends `num` variable-output placeholders and `append_contract` appends one
external-contract dependency. -/
structure DepState where
  variable_outputs : Nat
  external_contracts : List Nat
deriving DecidableEq, Repr

/-- Modelled from the spec: the trait methods for `DepState`. -/
def depOps : TxDepOps DepState :=
  ⟨fun s num => { s with variable_outputs := s.variable_outputs + num },
   fun s contract_id => { s with external_contracts := s.external_contracts ++ [contract_id] }⟩

/-! ## Output/input classification predicates -/

/-- Is this input an `Input::Contract` with the given contract id? -/
def Input.isContractWithId (cid : Nat) : Input → Bool
  | .contract _ _ _ _ c => c == cid
  | _ => false

/-- Is this input an `Input::Contract`? -/
def Input.isContractInput : Input → Bool
  | .contract _ _ _ _ _ => true
  | _ => false

/-- Is this input a resource (signed or predicate) input? -/
def Input.isResource : Input → Bool
  | .resourceSigned _ => true
  | .resourcePredicate _ _ _ => true
  | .contract _ _ _ _ _ => false

/-- Is this output an `Output::Contract`? -/
def Output.isContractOutput : Output → Bool
  | .contract _ _ _ => true
  | _ => false

/-- Is this output a change output for the given asset id? -/
def Output.isChangeFor (asset : Nat) : Output → Bool
  | .change _ _ a => a == asset
  | _ => false

/-- Is this output a coin output to the given recipient for the given asset
(any amount)? -/
def Output.isCoinFor (recipient : Nat) (asset : Nat) : Output → Bool
  | .coin r _ a => r == recipient && a == asset
  | _ => false

/-- Is this output an `Output::Variable`? -/
def Output.isVariableOutput : Output → Bool
  | .variable _ _ _ => true
  | _ => false

/-- Is this receipt a panic with reason `ContractNotInInputs`? -/
def isContractNotInInputsPanic : Receipt → Bool
  | .panicked reason _ => reason = .contractNotInInputs
  | _ => false

/-! ## Claim-level script-data layout (stated from the spec's wire format)

Per call, in order: `amount:u64be | asset_id:32B | contract_id:32B |
selector_offset:u64be | args_offset:u64be | selector_bytes | arg_bytes |
[gas:u64be]?`.  The selector lands right after the five fixed-width fields
(8+32+32+8+8 = 88 bytes into the segment), the arguments right after the
selector, and each segment begins where the previous one ended. -/

def claimSegment (base_asset_id : Nat) (c : ContractCall) (s : Nat) :
    Option (List Nat) :=
  match c.encoded_args with
  | none => none
  | some resolve =>
    let selector_offset := s + 88
    let args_offset := selector_offset + c.encoded_selector.length
    let args := resolve args_offset
    some (u64be c.call_parameters.amount
      ++ bytes32be (c.call_parameters.asset_id.getD base_asset_id)
      ++ bytes32be c.contract_id
      ++ u64be selector_offset
      ++ u64be args_offset
      ++ c.encoded_selector
      ++ args
      ++ (match c.call_parameters.gas_forwarded with
          | some gf => u64be gf
          | none => []))

def claimSegments (base_asset_id : Nat) :
    List ContractCall → Nat → Option (List (List Nat))
  | [], _ => some []
  | c :: rest, s =>
    match claimSegment base_asset_id c s with
    | none => none
    | some seg => (claimSegments base_asset_id rest (s + seg.length)).map (seg :: ·)

/-! ## Claim-level totals for asset aggregation -/

/-- Total amount the calls' own parameters require for asset `a` (base asset
substituted for unspecified assets). -/
def callParamSum (calls : List ContractCall) (base_asset_id : Nat) (a : Nat) : Nat :=
  ((calls.filter fun c => decide (c.call_parameters.asset_id.getD base_asset_id = a)).map
    fun c => c.call_parameters.amount).sum

/-- Total custom-asset transfer amount for asset `a`, over all calls and
regardless of recipient. -/
def customSum (calls : List ContractCall) (a : Nat) : Nat :=
  (((calls.flatMap fun c => c.custom_assets).filter fun t => decide (t.1.1 = a)).map
    fun t => t.2).sum

/-- Total custom-asset transfer amount for the exact pair `(a, some r)`, over
all calls. -/
def pairSum (calls : List ContractCall) (a : Nat) (r : Nat) : Nat :=
  (((calls.flatMap fun c => c.custom_assets).filter fun t => decide (t.1 = (a, some r))).map
    fun t => t.2).sum

/-! ## Generic lemmas about `keySum` and `sumRuns` -/

theorem keySum_cons {κ : Type} [DecidableEq κ] (a : κ) (p : κ × Nat)
    (l : List (κ × Nat)) :
    keySum a (p :: l) = (if p.1 = a then p.2 else 0) + keySum a l := by
  by_cases h : p.1 = a <;> simp [keySum, h]

theorem keySum_append {κ : Type} [DecidableEq κ] (a : κ) (l₁ l₂ : List (κ × Nat)) :
    keySum a (l₁ ++ l₂) = keySum a l₁ + keySum a l₂ := by
  simp [keySum]

theorem keySum_perm {κ : Type} [DecidableEq κ] (a : κ) {l₁ l₂ : List (κ × Nat)}
    (h : l₁.Perm l₂) : keySum a l₁ = keySum a l₂ :=
  ((h.filter _).map _).sum_eq

theorem keySum_eq_zero_of_not_mem {κ : Type} [DecidableEq κ] {a : κ}
    {l : List (κ × Nat)} (h : a ∉ l.map Prod.fst) : keySum a l = 0 := by
  induction l with
  | nil => rfl
  | cons p t ih =>
      simp only [List.map_cons, List.mem_cons] at h
      push_neg at h
      rw [keySum_cons, ih h.2, if_neg (fun hh => h.1 hh.symm)]

theorem keySum_of_nodupKeys {κ : Type} [DecidableEq κ] {a : κ} {v : Nat}
    {l : List (κ × Nat)} (hnd : (l.map Prod.fst).Nodup) (hmem : (a, v) ∈ l) :
    keySum a l = v := by
  induction l with
  | nil => simp at hmem
  | cons p t ih =>
      simp only [List.map_cons, List.nodup_cons] at hnd
      rcases List.mem_cons.mp hmem with heq | hmem2
      · subst heq
        rw [keySum_cons, if_pos rfl, keySum_eq_zero_of_not_mem hnd.1]
        rfl
      · have ha : a ∈ t.map Prod.fst := List.mem_map.mpr ⟨(a, v), hmem2, rfl⟩
        have hne : p.1 ≠ a := fun h => hnd.1 (h ▸ ha)
        rw [keySum_cons, if_neg hne, ih hnd.2 hmem2, Nat.zero_add]

theorem sumRuns_cons_eq {κ : Type} [DecidableEq κ] (p : κ × Nat)
    (t : List (κ × Nat)) : sumRuns (p :: t) = mergeRun p.1 p.2 (sumRuns t) := rfl

theorem sumRuns_eq_nil {κ : Type} [DecidableEq κ] {l : List (κ × Nat)} :
    sumRuns l = [] ↔ l = [] := by
  cases l with
  | nil => simp [sumRuns]
  | cons p t =>
      rw [sumRuns_cons_eq]
      cases h : sumRuns t with
      | nil => simp [mergeRun]
      | cons q tail =>
          by_cases hab : p.1 = q.1 <;> simp [mergeRun, hab]

theorem sumRuns_cons_head {κ : Type} [DecidableEq κ] (a : κ) (n : Nat)
    (t : List (κ × Nat)) :
    ∃ m tail, sumRuns ((a, n) :: t) = (a, m) :: tail := by
  rw [sumRuns_cons_eq]
  cases h : sumRuns t with
  | nil => exact ⟨n, [], rfl⟩
  | cons q tail =>
      by_cases hab : a = q.1
      · exact ⟨n + q.2, tail, by simp [mergeRun, hab]⟩
      · exact ⟨n, q :: tail, by simp [mergeRun, hab]⟩

theorem keySum_mergeRun {κ : Type} [DecidableEq κ] (a b : κ) (n : Nat)
    (t : List (κ × Nat)) :
    keySum a (mergeRun b n t) = (if b = a then n else 0) + keySum a t := by
  cases t with
  | nil => rw [mergeRun, keySum_cons]
  | cons q tail =>
      by_cases hbq : b = q.1
      · subst hbq
        rw [mergeRun, if_pos rfl, keySum_cons, keySum_cons]
        show (if q.1 = a then n + q.2 else 0) + keySum a tail =
          (if q.1 = a then n else 0) + ((if q.1 = a then q.2 else 0) + keySum a tail)
        by_cases hba : q.1 = a
        · rw [if_pos hba, if_pos hba, if_pos hba]
          omega
        · rw [if_neg hba, if_neg hba, if_neg hba]
          omega
      · rw [mergeRun, if_neg hbq, keySum_cons, keySum_cons]

theorem keySum_sumRuns {κ : Type} [DecidableEq κ] (a : κ) (l : List (κ × Nat)) :
    keySum a (sumRuns l) = keySum a l := by
  induction l with
  | nil => rfl
  | cons p t ih =>
      rw [sumRuns_cons_eq, keySum_mergeRun, ih, keySum_cons]

theorem mem_keys_mergeRun {κ : Type} [DecidableEq κ] (a b : κ) (n : Nat)
    (t : List (κ × Nat)) :
    a ∈ (mergeRun b n t).map Prod.fst ↔ a = b ∨ a ∈ t.map Prod.fst := by
  cases t with
  | nil => simp [mergeRun]
  | cons q tail =>
      by_cases hbq : b = q.1
      · rw [mergeRun, if_pos hbq]
        simp only [List.map_cons, List.mem_cons]
        constructor
        · rintro (h | h)
          · exact Or.inl h
          · exact Or.inr (Or.inr h)
        · rintro (h | h | h)
          · exact Or.inl h
          · exact Or.inl ((h.trans hbq.symm : a = b))
          · exact Or.inr h
      · rw [mergeRun, if_neg hbq]
        simp only [List.map_cons, List.mem_cons]


theorem mem_keys_sumRuns {κ : Type} [DecidableEq κ] (a : κ) (l : List (κ × Nat)) :
    a ∈ (sumRuns l).map Prod.fst ↔ a ∈ l.map Prod.fst := by
  induction l with
  | nil => simp [sumRuns]
  | cons p t ih =>
      rw [sumRuns_cons_eq, mem_keys_mergeRun, ih]
      simp

theorem countP_key_of_nodupKeys {κ : Type} [DecidableEq κ] (K : κ)
    {l : List (κ × Nat)} (hnd : (l.map Prod.fst).Nodup) :
    (l.countP fun p => decide (p.1 = K)) = if K ∈ l.map Prod.fst then 1 else 0 := by
  induction l with
  | nil => simp
  | cons p t ih =>
      simp only [List.map_cons, List.nodup_cons] at hnd
      rw [List.countP_cons, ih hnd.2]
      by_cases hpK : p.1 = K
      · subst hpK
        simp [hnd.1]
      · have hKp : ¬(K = p.1) := fun h => hpK h.symm
        by_cases hK : K ∈ t.map Prod.fst
        · simp [hK, hpK, hKp]
        · simp [hK, hpK, hKp]

theorem keySum_map_pair {κ α : Type} [DecidableEq κ] (a : κ) (l : List α)
    (key : α → κ) (amt : α → Nat) :
    keySum a (l.map fun x => (key x, amt x)) =
      ((l.filter fun x => decide (key x = a)).map amt).sum := by
  simp [keySum, List.filter_map, List.map_map, Function.comp_def]

instance : IsTotal (Nat × Nat) (fun p q => p.1 ≤ q.1) :=
  ⟨fun a b => Nat.le_total a.1 b.1⟩

instance : IsTrans (Nat × Nat) (fun p q => p.1 ≤ q.1) :=
  ⟨fun _ _ _ => Nat.le_trans⟩

theorem sumRuns_pairwise_lt {l : List (Nat × Nat)}
    (hs : l.Pairwise fun p q => p.1 ≤ q.1) :
    (sumRuns l).Pairwise fun p q => p.1 < q.1 := by
  induction l with
  | nil => exact List.Pairwise.nil
  | cons p t ih =>
      rw [List.pairwise_cons] at hs
      have iht := ih hs.2
      rw [sumRuns_cons_eq]
      cases h : sumRuns t with
      | nil => simp [mergeRun]
      | cons q tail =>
          have ht_ne : t ≠ [] := by
            intro he
            rw [he] at h
            simp [sumRuns] at h
          obtain ⟨t0, t', rfl⟩ := List.exists_cons_of_ne_nil ht_ne
          obtain ⟨m, tail', hst⟩ := sumRuns_cons_head t0.1 t0.2 t'
          rw [show ((t0.1, t0.2) : Nat × Nat) = t0 from rfl, h] at hst
          have hq : q = (t0.1, m) := List.head_eq_of_cons_eq hst
          have hq1 : q.1 = t0.1 := by rw [hq]
          have hple : p.1 ≤ q.1 := hq1 ▸ hs.1 t0 (List.mem_cons_self t0 t')
          rw [h] at iht
          rw [List.pairwise_cons] at iht
          by_cases hpq : p.1 = q.1
          · rw [mergeRun, if_pos hpq]
            rw [List.pairwise_cons]
            refine ⟨fun x hx => ?_, iht.2⟩
            exact hpq ▸ iht.1 x hx
          · rw [mergeRun, if_neg hpq]
            rw [List.pairwise_cons]
            constructor
            · intro x hx
              rcases List.mem_cons.mp hx with rfl | hx'
              · exact Nat.lt_of_le_of_ne hple hpq
              · exact Nat.lt_trans (Nat.lt_of_le_of_ne hple hpq) (iht.1 x hx')
            · rw [List.pairwise_cons]
              exact iht

theorem nodupKeys_of_pairwise_lt {l : List (Nat × Nat)}
    (h : l.Pairwise fun p q => p.1 < q.1) : (l.map Prod.fst).Nodup :=
  List.pairwise_map.mpr (h.imp fun hlt => Nat.ne_of_lt hlt)

theorem mem_sumRuns_sorted {l : List (Nat × Nat)}
    (hs : l.Pairwise fun p q => p.1 ≤ q.1) (a v : Nat) :
    (a, v) ∈ sumRuns l ↔ a ∈ l.map Prod.fst ∧ v = keySum a l := by
  have hnd := nodupKeys_of_pairwise_lt (sumRuns_pairwise_lt hs)
  constructor
  · intro hmem
    have hkeys : a ∈ (sumRuns l).map Prod.fst := List.mem_map.mpr ⟨(a, v), hmem, rfl⟩
    refine ⟨(mem_keys_sumRuns a l).mp hkeys, ?_⟩
    have hv := keySum_of_nodupKeys hnd hmem
    rw [← hv, keySum_sumRuns]
  · rintro ⟨hk, rfl⟩
    have hkeys : a ∈ (sumRuns l).map Prod.fst := (mem_keys_sumRuns a l).mpr hk
    obtain ⟨p, hp, hfst⟩ := List.mem_map.mp hkeys
    obtain ⟨a2, v2⟩ := p
    have ha2 : a2 = a := hfst
    subst ha2
    have hv2 := keySum_of_nodupKeys hnd hp
    rw [keySum_sumRuns] at hv2
    rw [hv2]
    exact hp

theorem sum_up_characterization (l : List (Nat × Nat)) :
    (sum_up_amounts_for_each_asset_id l).Pairwise (fun p q => p.1 < q.1) ∧
    ∀ a v, ((a, v) ∈ sum_up_amounts_for_each_asset_id l ↔
      a ∈ l.map Prod.fst ∧ v = keySum a l) := by
  have hperm : (l.insertionSort fun p q => p.1 ≤ q.1).Perm l :=
    List.perm_insertionSort _ l
  have hs : (l.insertionSort fun p q => p.1 ≤ q.1).Pairwise fun p q => p.1 ≤ q.1 :=
    List.sorted_insertionSort _ l
  constructor
  · exact sumRuns_pairwise_lt hs
  · intro a v
    rw [sum_up_amounts_for_each_asset_id, mem_sumRuns_sorted hs,
      keySum_perm a hperm, (hperm.map Prod.fst).mem_iff]

/-- A minimal call used by concrete examples: given asset id and amount (and
nothing else of interest). -/
def exampleCall (asset : Option Nat) (amount : Nat) : ContractCall :=
  { contract_id := 0
    encoded_args := some fun _ => []
    encoded_selector := [0, 0, 0, 0, 0, 0, 0, 0]
    call_parameters := ⟨amount, asset, none⟩
    compute_custom_input_offset := false
    variable_outputs := []
    external_contracts := []
    output_param := .unit
    is_payable := false
    custom_assets := [] }

/-- C7: `calculate_required_asset_amounts` returns one entry per distinct
asset id, sorted by asset id; each entry's amount is the sum of the calls'
own `(asset, amount)` parameters for that asset (base asset substituted when
a call names none, zero amounts still tracked) plus all custom-asset
transfer amounts for that asset regardless of recipient.  In particular the
calls `[(X,100), (Y,200), (X,300), (Y,400)]` with no custom assets yield
`{X: 400, Y: 600}`. -/
theorem calculate_required_asset_amounts_spec (calls : List ContractCall)
    (base_asset_id : Nat) :
    ((calculate_required_asset_amounts calls base_asset_id).Pairwise
        fun p q => p.1 < q.1)
    ∧ (∀ a v, ((a, v) ∈ calculate_required_asset_amounts calls base_asset_id ↔
        ((∃ c ∈ calls, c.call_parameters.asset_id.getD base_asset_id = a) ∨
          ∃ c ∈ calls, ∃ t ∈ c.custom_assets, t.1.1 = a)
        ∧ v = callParamSum calls base_asset_id a + customSum calls a))
    ∧ calculate_required_asset_amounts
        [exampleCall (some 1) 100, exampleCall (some 2) 200,
         exampleCall (some 1) 300, exampleCall (some 2) 400] 0 = [(1, 400), (2, 600)] := by
  have hchar := sum_up_characterization
    ((calls.map fun call =>
        (call.call_parameters.asset_id.getD base_asset_id, call.call_parameters.amount))
      ++ sumRuns ((calls.flatMap fun call => call.custom_assets).map fun custom =>
          (custom.1.1, custom.2)))
  refine ⟨hchar.1, fun a v => ?_, by decide⟩
  rw [show calculate_required_asset_amounts calls base_asset_id =
      sum_up_amounts_for_each_asset_id
        ((calls.map fun call =>
            (call.call_parameters.asset_id.getD base_asset_id, call.call_parameters.amount))
          ++ sumRuns ((calls.flatMap fun call => call.custom_assets).map fun custom =>
              (custom.1.1, custom.2))) from rfl]
  rw [hchar.2 a v]
  constructor
  · rintro ⟨hmem, hval⟩
    refine ⟨?_, ?_⟩
    · rw [List.map_append, List.mem_append] at hmem
      rcases hmem with hmem | hmem
      · left
        obtain ⟨p, hp, hfst⟩ := List.mem_map.mp hmem
        obtain ⟨c, hc, rfl⟩ := List.mem_map.mp hp
        exact ⟨c, hc, hfst⟩
      · right
        rw [mem_keys_sumRuns] at hmem
        rw [List.map_map] at hmem
        obtain ⟨t, ht, hfst⟩ := List.mem_map.mp hmem
        obtain ⟨c, hc, htc⟩ := List.mem_flatMap.mp ht
        exact ⟨c, hc, t, htc, hfst⟩
    · rw [hval, keySum_append, keySum_sumRuns, keySum_map_pair, keySum_map_pair]
      rfl
  · rintro ⟨hmem, hval⟩
    refine ⟨?_, ?_⟩
    · rw [List.map_append, List.mem_append]
      rcases hmem with ⟨c, hc, hfst⟩ | ⟨c, hc, t, htc, hfst⟩
      · left
        exact List.mem_map.mpr ⟨(c.call_parameters.asset_id.getD base_asset_id,
          c.call_parameters.amount), List.mem_map.mpr ⟨c, hc, rfl⟩, hfst⟩
      · right
        rw [mem_keys_sumRuns, List.map_map]
        exact List.mem_map.mpr ⟨t, List.mem_flatMap.mpr ⟨c, hc, htc⟩, hfst⟩
    · rw [hval, keySum_append, keySum_sumRuns, keySum_map_pair, keySum_map_pair]
      rfl

/-! ## Receipt-inspection lemmas (for the patch step) -/

theorem find_id_none {rs : List Receipt}
    (h : rs.find? isContractNotInInputsPanic = none) :
    find_id_of_missing_contract rs = none := by
  induction rs with
  | nil => rfl
  | cons r t ih =>
      rw [List.find?_cons] at h
      cases hr : isContractNotInInputsPanic r with
      | true => rw [hr] at h; simp at h
      | false =>
          rw [hr] at h
          simp only at h
          cases r with
          | revert ra =>
              simp only [find_id_of_missing_contract, List.findSome?_cons]
              exact ih h
          | panicked reason cid =>
              have hreason : reason ≠ .contractNotInInputs := by
                intro hc
                rw [isContractNotInInputsPanic, hc] at hr
                simp at hr
              simp only [find_id_of_missing_contract, List.findSome?_cons, if_neg hreason]
              exact ih h
          | otherReceipt tag =>
              simp only [find_id_of_missing_contract, List.findSome?_cons]
              exact ih h

theorem find_id_some {rs : List Receipt} {r : Receipt}
    (h : rs.find? isContractNotInInputsPanic = some r) :
    ∃ cidOpt, r = Receipt.panicked .contractNotInInputs cidOpt ∧
      find_id_of_missing_contract rs = some (cidOpt.getD 0) := by
  induction rs with
  | nil => simp at h
  | cons r0 t ih =>
      rw [List.find?_cons] at h
      cases hr : isContractNotInInputsPanic r0 with
      | true =>
          rw [hr] at h
          simp only [Option.some.injEq] at h
          subst h
          cases r0 with
          | panicked reason cid =>
              have hreason : reason = .contractNotInInputs := by
                rw [isContractNotInInputsPanic] at hr
                by_contra hne
                simp [hne] at hr
              subst hreason
              refine ⟨cid, rfl, ?_⟩
              simp [find_id_of_missing_contract, List.findSome?_cons]
          | revert ra => simp [isContractNotInInputsPanic] at hr
          | otherReceipt tag => simp [isContractNotInInputsPanic] at hr
      | false =>
          rw [hr] at h
          simp only at h
          obtain ⟨cidOpt, hrr, hfind⟩ := ih h
          refine ⟨cidOpt, hrr, ?_⟩
          cases r0 with
          | revert ra =>
              simpa only [find_id_of_missing_contract, List.findSome?_cons] using hfind
          | panicked reason cid =>
              have hreason : reason ≠ .contractNotInInputs := by
                intro hc
                rw [isContractNotInInputsPanic, hc] at hr
                simp at hr
              simpa only [find_id_of_missing_contract, List.findSome?_cons,
                if_neg hreason] using hfind
          | otherReceipt tag =>
              simpa only [find_id_of_missing_contract, List.findSome?_cons] using hfind

/-- C5: on any receipt list, `append_missing_dependencies` appends exactly
one variable-output placeholder if and only if some receipt is a revert with
the failed-transfer signal (never one per missing transfer), and appends the
contract id carried by the first contract-not-in-inputs panic receipt, if
one exists; the two patches are independent and can both happen in one
call. -/
theorem append_missing_dependencies_spec (s : DepState) (rs : List Receipt)
    (hcarry : ∀ cidOpt, Receipt.panicked .contractNotInInputs cidOpt ∈ rs →
      cidOpt.isSome = true) :
    ((append_missing_dependencies depOps s rs).variable_outputs
        = s.variable_outputs + if is_missing_output_variables rs then 1 else 0)
    ∧ (is_missing_output_variables rs = true ↔
        Receipt.revert FAILED_TRANSFER_TO_ADDRESS_SIGNAL ∈ rs)
    ∧ ((append_missing_dependencies depOps s rs).external_contracts
        = s.external_contracts ++ (find_id_of_missing_contract rs).toList)
    ∧ (∀ r, rs.find? isContractNotInInputsPanic = some r →
        ∃ cid, r = Receipt.panicked .contractNotInInputs (some cid) ∧
          find_id_of_missing_contract rs = some cid)
    ∧ (rs.find? isContractNotInInputsPanic = none →
        find_id_of_missing_contract rs = none) := by
  refine ⟨?_, ?_, ?_, ?_, fun h => find_id_none h⟩
  · by_cases hv : is_missing_output_variables rs <;>
      cases hf : find_id_of_missing_contract rs <;>
        simp [append_missing_dependencies, depOps, hv, hf]
  · rw [is_missing_output_variables, List.any_eq_true]
    constructor
    · rintro ⟨r, hr, hm⟩
      cases r with
      | revert ra =>
          simp only [beq_iff_eq] at hm
          exact hm ▸ hr
      | panicked reason cid => simp at hm
      | otherReceipt tag => simp at hm
    · intro h
      exact ⟨.revert FAILED_TRANSFER_TO_ADDRESS_SIGNAL, h, by simp⟩
  · by_cases hv : is_missing_output_variables rs <;>
      cases hf : find_id_of_missing_contract rs <;>
        simp [append_missing_dependencies, depOps, hv, hf]
  · intro r h
    obtain ⟨cidOpt, hrr, hfind⟩ := find_id_some h
    have hmem : r ∈ rs := List.mem_of_find?_eq_some h
    have hsome := hcarry cidOpt (hrr ▸ hmem)
    obtain ⟨cid, rfl⟩ := Option.isSome_iff_exists.mp hsome
    exact ⟨cid, hrr, by simpa using hfind⟩

/-- Receipts used by the C5 witness: one failed-transfer revert and one
contract-not-in-inputs panic, so both patches fire in the same call. -/
def c5rs : List Receipt :=
  [.revert FAILED_TRANSFER_TO_ADDRESS_SIGNAL, .panicked .contractNotInInputs (some 9)]

theorem append_missing_dependencies_spec_witness :
    ((append_missing_dependencies depOps ⟨0, []⟩ c5rs).variable_outputs
        = 0 + if is_missing_output_variables c5rs then 1 else 0)
    ∧ ((append_missing_dependencies depOps ⟨0, []⟩ c5rs).external_contracts
        = [] ++ (find_id_of_missing_contract c5rs).toList) :=
  ⟨(append_missing_dependencies_spec ⟨0, []⟩ c5rs (by
      intro cidOpt hmem
      simp [c5rs] at hmem
      subst hmem
      rfl)).1,
   (append_missing_dependencies_spec ⟨0, []⟩ c5rs (by
      intro cidOpt hmem
      simp [c5rs] at hmem
      subst hmem
      rfl)).2.2.1⟩

/-! ## Dependency-resolution loop lemmas -/

/-- The value the trailing `self.simulate().await.map(|_| self)` produces
from a simulation outcome and the current state. -/
def finalOutcome {S : Type} (out : Except SdkError Unit) (s : S) :
    Except SdkError S :=
  match out with
  | .ok _ => .ok s
  | .error e => .error e

/-- The state after `n` consecutive patch steps starting at simulation index
`k`, when the `j`-th simulation reverted with receipts `rsf j`. -/
def patchAll {S : Type} (ops : TxDepOps S) (rsf : Nat → List Receipt) :
    S → Nat → Nat → S
  | s, _, 0 => s
  | s, k, n + 1 =>
      patchAll ops rsf (append_missing_dependencies ops s (rsf k)) (k + 1) n

theorem estimateGo_count_le {S : Type} (ops : TxDepOps S)
    (oracle : Nat → Except SdkError Unit) :
    ∀ (n k : Nat) (s : S), (estimateGo ops oracle n k s).2 ≤ k + n + 1 := by
  intro n
  induction n with
  | zero =>
      intro k s
      cases h : oracle k with
      | ok u => simp [estimateGo, h]
      | error e => simp [estimateGo, h]
  | succ n ih =>
      intro k s
      cases h : oracle k with
      | ok u =>
          simp only [estimateGo, h]
          omega
      | error e =>
          cases e with
          | transactionReverted receipts =>
              simp only [estimateGo, h]
              have := ih (k + 1) (append_missing_dependencies ops s receipts)
              omega
          | otherError c =>
              simp only [estimateGo, h]
              omega

theorem estimateGo_exhaust {S : Type} (ops : TxDepOps S)
    (oracle : Nat → Except SdkError Unit) (rsf : Nat → List Receipt) :
    ∀ (n k : Nat) (s : S),
    (∀ j, j < n → oracle (k + j) = .error (.transactionReverted (rsf (k + j)))) →
    estimateGo ops oracle n k s
      = (finalOutcome (oracle (k + n)) (patchAll ops rsf s k n), k + n + 1) := by
  intro n
  induction n with
  | zero =>
      intro k s h
      cases hk : oracle k with
      | ok u => simp [estimateGo, finalOutcome, patchAll, hk]
      | error e => simp [estimateGo, finalOutcome, patchAll, hk]
  | succ n ih =>
      intro k s h
      have h0 : oracle k = .error (.transactionReverted (rsf k)) := by
        have := h 0 (Nat.succ_pos n)
        simpa using this
      simp only [estimateGo, h0]
      rw [ih (k + 1) (append_missing_dependencies ops s (rsf k)) (fun j hj => by
        rw [show k + 1 + j = k + (j + 1) from by omega]
        exact h (j + 1) (by omega))]
      have hidx : k + 1 + n = k + (n + 1) := by omega
      rw [hidx]
      rfl

theorem estimateGo_early_error {S : Type} (ops : TxDepOps S)
    (oracle : Nat → Except SdkError Unit) :
    ∀ (m n k : Nat) (s : S) (e : SdkError), m < n →
    (∀ j, j < m → ∃ rs, oracle (k + j) = .error (.transactionReverted rs)) →
    oracle (k + m) = .error e →
    (∀ rs, e ≠ .transactionReverted rs) →
    estimateGo ops oracle n k s = (.error e, k + m + 1) := by
  intro m
  induction m with
  | zero =>
      intro n k s e hmn hprev herr hnot
      obtain ⟨n2, rfl⟩ : ∃ n2, n = n2 + 1 := ⟨n - 1, by omega⟩
      rw [Nat.add_zero] at herr
      cases e with
      | transactionReverted rs => exact absurd rfl (hnot rs)
      | otherError c => simp [estimateGo, herr]
  | succ m ih =>
      intro n k s e hmn hprev herr hnot
      obtain ⟨n2, rfl⟩ : ∃ n2, n = n2 + 1 := ⟨n - 1, by omega⟩
      obtain ⟨rs0, h0⟩ := hprev 0 (Nat.succ_pos m)
      rw [Nat.add_zero] at h0
      simp only [estimateGo, h0]
      rw [ih n2 (k + 1) (append_missing_dependencies ops s rs0) e (by omega)
        (fun j hj => by
          obtain ⟨rs, hrs⟩ := hprev (j + 1) (by omega)
          exact ⟨rs, by rw [show k + 1 + j = k + (j + 1) from by omega]; exact hrs⟩)
        (by rw [show k + 1 + m = k + (m + 1) from by omega]; exact herr) hnot]
      exact congrArg (Prod.mk (Except.error e)) (by omega)

/-- C6: the loop makes at most `n + 1` simulation calls for a configured
attempt count `n` (`n` bounded attempts plus the one mandatory final
simulation); the count defaults to 10; and when all `n` attempts fail with
reverts, exactly one final simulation runs and its own outcome (the patched
state on success, its error otherwise) is returned. -/
theorem estimate_tx_dependencies_attempts (S : Type) (ops : TxDepOps S)
    (oracle : Nat → Except SdkError Unit) (s : S) :
    DEFAULT_TX_DEP_ESTIMATION_ATTEMPTS = 10
    ∧ (∀ n, (estimate_tx_dependencies ops oracle (some n) s).2 ≤ n + 1)
    ∧ (estimate_tx_dependencies ops oracle none s
        = estimate_tx_dependencies ops oracle
            (some DEFAULT_TX_DEP_ESTIMATION_ATTEMPTS) s)
    ∧ ∀ n (rsf : Nat → List Receipt),
        (∀ j, j < n → oracle j = .error (.transactionReverted (rsf j))) →
        estimate_tx_dependencies ops oracle (some n) s
          = (finalOutcome (oracle n) (patchAll ops rsf s 0 n), n + 1) := by
  refine ⟨rfl, fun n => ?_, rfl, fun n rsf h => ?_⟩
  · have := estimateGo_count_le ops oracle n 0 s
    simpa [estimate_tx_dependencies] using this
  · have := estimateGo_exhaust ops oracle rsf n 0 s (fun j hj => by
      simpa using h j hj)
    simpa [estimate_tx_dependencies] using this

/-- The oracle whose every simulation reverts with an empty receipt list (a
revert carrying no recoverable signal). -/
def oracleAlwaysRevertEmpty : Nat → Except SdkError Unit :=
  fun _ => .error (.transactionReverted [])

theorem estimate_tx_dependencies_attempts_witness :
    (estimate_tx_dependencies depOps oracleAlwaysRevertEmpty (some 2)
        (⟨0, []⟩ : DepState)).2 ≤ 3
    ∧ estimate_tx_dependencies depOps oracleAlwaysRevertEmpty (some 2) ⟨0, []⟩
        = (finalOutcome (oracleAlwaysRevertEmpty 2)
            (patchAll depOps (fun _ => []) ⟨0, []⟩ 0 2), 3) :=
  ⟨(estimate_tx_dependencies_attempts DepState depOps oracleAlwaysRevertEmpty
      ⟨0, []⟩).2.1 2,
   (estimate_tx_dependencies_attempts DepState depOps oracleAlwaysRevertEmpty
      ⟨0, []⟩).2.2.2 2 (fun _ => []) (fun j hj => rfl)⟩

/-- C1 counterexample: the very first simulation fails with a revert that
carries no recoverable signal (empty receipts), yet the loop does not
terminate on that iteration — with 2 attempts configured it performs 3
simulations, and the error it finally returns is the final simulation's,
not an immediate return of the first one. -/
theorem estimate_no_immediate_stop_counterexample :
    oracleAlwaysRevertEmpty 0 = .error (.transactionReverted [])
    ∧ is_missing_output_variables [] = false
    ∧ find_id_of_missing_contract [] = none
    ∧ (estimate_tx_dependencies depOps oracleAlwaysRevertEmpty (some 2)
        (⟨0, []⟩ : DepState)).2 = 3
    ∧ estimate_tx_dependencies depOps oracleAlwaysRevertEmpty (some 2) ⟨0, []⟩
        = (.error (.transactionReverted []), 3) :=
  ⟨rfl, rfl, rfl, rfl, rfl⟩

/-- C1 (amended): only a simulation error that is not a
`Transaction::Reverted` error at all terminates the loop immediately, with
that error returned unchanged and no patch applied; a revert — with or
without a recoverable signal — consumes an attempt (its patch step being a
no-op when no signal is recognized) and the loop continues. -/
theorem estimate_terminates_on_non_revert_error (S : Type) (ops : TxDepOps S)
    (oracle : Nat → Except SdkError Unit) (s : S) (n m : Nat) (e : SdkError)
    (hm : m < n)
    (hprev : ∀ j, j < m → ∃ rs, oracle j = .error (.transactionReverted rs))
    (herr : oracle m = .error e)
    (hnot : ∀ rs, e ≠ .transactionReverted rs) :
    estimate_tx_dependencies ops oracle (some n) s = (.error e, m + 1) := by
  have := estimateGo_early_error ops oracle m n 0 s e hm
    (fun j hj => by simpa using hprev j hj) (by simpa using herr) hnot
  simpa [estimate_tx_dependencies] using this

/-- Oracle for the C1 witness: first a revert, then a non-revert provider
error. -/
def oracleRevertThenOther : Nat → Except SdkError Unit :=
  fun k => if k = 0 then .error (.transactionReverted []) else .error (.otherError 7)

theorem estimate_terminates_on_non_revert_error_witness :
    estimate_tx_dependencies depOps oracleRevertThenOther (some 5)
      (⟨0, []⟩ : DepState) = (.error (.otherError 7), 2) :=
  estimate_terminates_on_non_revert_error DepState depOps oracleRevertThenOther
    ⟨0, []⟩ 5 1 (.otherError 7) (by omega)
    (fun j hj => ⟨[], by
      cases j with
      | zero => rfl
      | succ j => omega⟩)
    rfl
    (fun rs h => SdkError.noConfusion h)

/-! ## Classification of the output segments -/

theorem mem_generate_contract_outputs {n : Nat} {o : Output}
    (h : o ∈ generate_contract_outputs n) :
    ∃ i, i < n ∧ o = .contract i 0 0 := by
  rw [generate_contract_outputs] at h
  obtain ⟨i, hi, rfl⟩ := List.mem_map.mp h
  exact ⟨i, List.mem_range.mp hi, rfl⟩

theorem mem_generate_asset_change_outputs {address : Nat} {ids : List Nat}
    {o : Output} (h : o ∈ generate_asset_change_outputs address ids) :
    ∃ a, a ∈ ids ∧ o = .change address 0 a := by
  rw [generate_asset_change_outputs] at h
  obtain ⟨a, ha, rfl⟩ := List.mem_map.mp h
  exact ⟨a, ha, rfl⟩

theorem mem_generate_custom_outputs {calls : List ContractCall} {o : Output}
    (h : o ∈ generate_custom_outputs calls) :
    ∃ group, group ∈ sumRuns (calls.flatMap fun c => c.custom_assets) ∧
      ∃ r, group.1.2 = some r ∧ o = .coin r group.2 group.1.1 := by
  rw [generate_custom_outputs] at h
  obtain ⟨group, hg, hsome⟩ := List.mem_filterMap.mp h
  refine ⟨group, hg, ?_⟩
  cases hrec : group.1.2 with
  | none => rw [customOutputOf, hrec] at hsome; simp at hsome
  | some r =>
      rw [customOutputOf, hrec] at hsome
      simp only [Option.some.injEq] at hsome
      exact ⟨r, rfl, hsome.symm⟩

theorem mem_extract_variable_outputs {calls : List ContractCall} {o : Output}
    (h : o ∈ extract_variable_outputs calls) :
    ∃ c, c ∈ calls ∧ o ∈ c.variable_outputs := by
  rw [extract_variable_outputs] at h
  exact List.mem_flatMap.mp h

/-- Under the well-formedness assumption that pre-declared variable outputs
really are `Output::Variable`s, the shape of every output of
`get_transaction_inputs_outputs` is known. -/
theorem countP_outputs_decompose (calls : List ContractCall)
    (asset_inputs : List Input) (address base_asset_id : Nat) (p : Output → Bool) :
    ((get_transaction_inputs_outputs calls asset_inputs address base_asset_id).2.countP p)
      = (generate_contract_outputs
            (extract_unique_contract_ids calls).length).countP p
        + (generate_asset_change_outputs address
            (extract_unique_asset_ids asset_inputs base_asset_id)).countP p
        + (generate_custom_outputs calls).countP p
        + (extract_variable_outputs calls).countP p := by
  simp only [get_transaction_inputs_outputs, List.countP_append]

theorem countP_zero_of_shapes {α : Type} {l : List α} {p : α → Bool}
    (h : ∀ o ∈ l, p o = false) : l.countP p = 0 :=
  List.countP_eq_zero.mpr (fun o ho => by rw [h o ho]; exact Bool.false_ne_true)

/-- A well-formed pre-declared variable output is an `Output.variable`. -/
theorem variableOutput_shape {o : Output} (h : o.isVariableOutput = true) :
    ∃ r amt a, o = Output.variable r amt a := by
  cases o <;> simp [Output.isVariableOutput] at h <;> exact ⟨_, _, _, rfl⟩

/-- C9: the outputs of `get_transaction_inputs_outputs` contain exactly one
change output per distinct asset id among the supplied asset inputs (a
message resource counting as the base asset id), each with amount 0 and
directed to the supplied refund address. -/
theorem change_outputs_spec (calls : List ContractCall) (asset_inputs : List Input)
    (address base_asset_id : Nat)
    (hvar : ∀ c ∈ calls, ∀ o ∈ c.variable_outputs, o.isVariableOutput = true) :
    (∀ a, ((get_transaction_inputs_outputs calls asset_inputs address
          base_asset_id).2.countP (Output.isChangeFor a))
        = if a ∈ extract_unique_asset_ids asset_inputs base_asset_id then 1 else 0)
    ∧ (∀ a, a ∈ extract_unique_asset_ids asset_inputs base_asset_id ↔
        ∃ i ∈ asset_inputs, inputResourceAsset base_asset_id i = some a)
    ∧ (∀ r amt a, Output.change r amt a ∈
        (get_transaction_inputs_outputs calls asset_inputs address base_asset_id).2 →
        r = address ∧ amt = 0) := by
  refine ⟨fun a => ?_, fun a => ?_, fun r amt a hmem => ?_⟩
  · rw [countP_outputs_decompose]
    have h1 : (generate_contract_outputs
        (extract_unique_contract_ids calls).length).countP (Output.isChangeFor a) = 0 :=
      countP_zero_of_shapes fun o ho => by
        obtain ⟨i, _, rfl⟩ := mem_generate_contract_outputs ho
        rfl
    have h3 : (generate_custom_outputs calls).countP (Output.isChangeFor a) = 0 :=
      countP_zero_of_shapes fun o ho => by
        obtain ⟨g, _, r, _, rfl⟩ := mem_generate_custom_outputs ho
        rfl
    have h4 : (extract_variable_outputs calls).countP (Output.isChangeFor a) = 0 :=
      countP_zero_of_shapes fun o ho => by
        obtain ⟨c, hc, hoc⟩ := mem_extract_variable_outputs ho
        obtain ⟨r, amt, a2, rfl⟩ := variableOutput_shape (hvar c hc o hoc)
        rfl
    have h2 : (generate_asset_change_outputs address
        (extract_unique_asset_ids asset_inputs base_asset_id)).countP
          (Output.isChangeFor a)
        = if a ∈ extract_unique_asset_ids asset_inputs base_asset_id then 1 else 0 := by
      rw [generate_asset_change_outputs, List.countP_map]
      have hfn : (Output.isChangeFor a ∘ fun asset_id => Output.change address 0 asset_id)
          = fun asset_id => asset_id == a := by
        funext asset_id
        rfl
      rw [hfn]
      have hnd : (extract_unique_asset_ids asset_inputs base_asset_id).Nodup := by
        rw [extract_unique_asset_ids]
        exact List.nodup_dedup _
      by_cases h : a ∈ extract_unique_asset_ids asset_inputs base_asset_id
      · rw [if_pos h]
        exact List.count_eq_one_of_mem hnd h
      · rw [if_neg h]
        exact List.count_eq_zero_of_not_mem h
    rw [h1, h2, h3, h4]
    omega
  · rw [extract_unique_asset_ids, List.mem_dedup, List.mem_filterMap]
  · rw [get_transaction_inputs_outputs] at hmem
    simp only [List.mem_append] at hmem
    rcases hmem with ((hmem | hmem) | hmem) | hmem
    · obtain ⟨i, _, heq⟩ := mem_generate_contract_outputs hmem
      exact absurd heq (by simp)
    · obtain ⟨a2, _, heq⟩ := mem_generate_asset_change_outputs hmem
      refine ⟨?_, ?_⟩ <;> cases heq <;> rfl
    · obtain ⟨g, _, r2, _, heq⟩ := mem_generate_custom_outputs hmem
      exact absurd heq (by simp)
    · obtain ⟨c, hc, hoc⟩ := mem_extract_variable_outputs hmem
      obtain ⟨r2, amt2, a2, heq⟩ := variableOutput_shape (hvar c hc _ hoc)
      exact absurd heq (by simp)

theorem change_outputs_spec_witness :
    (∀ a, ((get_transaction_inputs_outputs [] [Input.resourceSigned
          (.coin (0, 0) 0 100 5)] 3 0).2.countP (Output.isChangeFor a))
        = if a ∈ extract_unique_asset_ids [Input.resourceSigned
            (.coin (0, 0) 0 100 5)] 0 then 1 else 0)
    ∧ ∀ r amt a, Output.change r amt a ∈
        (get_transaction_inputs_outputs [] [Input.resourceSigned
          (.coin (0, 0) 0 100 5)] 3 0).2 → r = 3 ∧ amt = 0 :=
  ⟨(change_outputs_spec [] [Input.resourceSigned (.coin (0, 0) 0 100 5)] 3 0
      (by intro c hc; simp at hc)).1,
   (change_outputs_spec [] [Input.resourceSigned (.coin (0, 0) 0 100 5)] 3 0
      (by intro c hc; simp at hc)).2.2⟩

/-! ## Contract input/output correspondence -/

theorem generate_contract_outputs_length (n : Nat) :
    (generate_contract_outputs n).length = n := by
  simp [generate_contract_outputs]

theorem generate_contract_inputs_length (ids : List Nat) :
    (generate_contract_inputs ids).length = ids.length := by
  simp [generate_contract_inputs]

theorem mem_extract_unique_contract_ids {calls : List ContractCall} {cid : Nat} :
    cid ∈ extract_unique_contract_ids calls ↔
      ∃ c ∈ calls, cid ∈ c.external_contracts ∨ cid = c.contract_id := by
  rw [extract_unique_contract_ids, List.mem_dedup, List.mem_flatMap]
  constructor
  · rintro ⟨c, hc, hm⟩
    rw [List.mem_append] at hm
    rcases hm with hm | hm
    · exact ⟨c, hc, Or.inl hm⟩
    · exact ⟨c, hc, Or.inr (List.mem_singleton.mp hm)⟩
  · rintro ⟨c, hc, hm | hm⟩
    · exact ⟨c, hc, List.mem_append.mpr (Or.inl hm)⟩
    · exact ⟨c, hc, List.mem_append.mpr (Or.inr (List.mem_singleton.mpr hm))⟩

theorem countP_generate_contract_inputs_id (ids : List Nat) (hnd : ids.Nodup)
    (cid : Nat) :
    (generate_contract_inputs ids).countP (Input.isContractWithId cid)
      = if cid ∈ ids then 1 else 0 := by
  rw [generate_contract_inputs, List.countP_map]
  have hfn : (Input.isContractWithId cid ∘ fun p : Nat × Nat =>
      Input.contract (0, p.1) 0 0 0 p.2) = fun p : Nat × Nat => p.2 == cid := by
    funext p
    rfl
  rw [hfn]
  have h2 : (ids.enum.countP fun p : Nat × Nat => p.2 == cid)
      = ids.countP fun a => a == cid := by
    have hm := List.countP_map (fun a : Nat => a == cid) Prod.snd ids.enum
    rw [List.enum_map_snd] at hm
    exact hm.symm
  rw [h2]
  by_cases h : cid ∈ ids
  · rw [if_pos h]
    exact List.count_eq_one_of_mem hnd h
  · rw [if_neg h]
    exact List.count_eq_zero_of_not_mem h

/-- C4: exactly one contract input and one contract output per distinct
contract id referenced by any call (as primary target or external
dependency); contract inputs and outputs have equal cardinality with a
positional correspondence, and the contract outputs sit before every other
output kind. -/
theorem contract_inputs_outputs_spec (calls : List ContractCall)
    (asset_inputs : List Input) (address base_asset_id : Nat)
    (hres : ∀ i ∈ asset_inputs, i.isResource = true)
    (hvar : ∀ c ∈ calls, ∀ o ∈ c.variable_outputs, o.isVariableOutput = true) :
    (∀ cid, ((get_transaction_inputs_outputs calls asset_inputs address
          base_asset_id).1.countP (Input.isContractWithId cid))
        = if ∃ c ∈ calls, cid ∈ c.external_contracts ∨ cid = c.contract_id
          then 1 else 0)
    ∧ ((get_transaction_inputs_outputs calls asset_inputs address
          base_asset_id).1.countP Input.isContractInput
        = (get_transaction_inputs_outputs calls asset_inputs address
          base_asset_id).2.countP Output.isContractOutput)
    ∧ ((get_transaction_inputs_outputs calls asset_inputs address
          base_asset_id).2.take (extract_unique_contract_ids calls).length
        = generate_contract_outputs (extract_unique_contract_ids calls).length)
    ∧ (∀ o ∈ (get_transaction_inputs_outputs calls asset_inputs address
          base_asset_id).2.drop (extract_unique_contract_ids calls).length,
        o.isContractOutput = false) := by
  have hnd : (extract_unique_contract_ids calls).Nodup := by
    rw [extract_unique_contract_ids]
    exact List.nodup_dedup _
  have hres0 : ∀ p : Input → Bool,
      (∀ r, p (Input.resourceSigned r) = false) →
      (∀ r c d, p (Input.resourcePredicate r c d) = false) →
      asset_inputs.countP p = 0 := by
    intro p h1 h2
    refine countP_zero_of_shapes fun i hi => ?_
    have hri := hres i hi
    cases i with
    | resourceSigned r => exact h1 r
    | resourcePredicate r c d => exact h2 r c d
    | contract u b st t c => simp [Input.isResource] at hri
  have hrest : ∀ o, o ∈ generate_asset_change_outputs address
        (extract_unique_asset_ids asset_inputs base_asset_id)
          ++ generate_custom_outputs calls ++ extract_variable_outputs calls →
      o.isContractOutput = false := by
    intro o ho
    rcases List.mem_append.mp ho with ho | ho
    · rcases List.mem_append.mp ho with ho | ho
      · obtain ⟨a2, _, rfl⟩ := mem_generate_asset_change_outputs ho
        rfl
      · obtain ⟨g, _, r2, _, rfl⟩ := mem_generate_custom_outputs ho
        rfl
    · obtain ⟨c, hc, hoc⟩ := mem_extract_variable_outputs ho
      obtain ⟨r2, amt2, a2, rfl⟩ := variableOutput_shape (hvar c hc _ hoc)
      rfl
  refine ⟨fun cid => ?_, ?_, ?_, ?_⟩
  · rw [get_transaction_inputs_outputs]
    simp only [List.countP_append]
    rw [countP_generate_contract_inputs_id _ hnd cid,
      hres0 (Input.isContractWithId cid) (fun r => rfl) (fun r c d => rfl)]
    by_cases hex : ∃ c ∈ calls, cid ∈ c.external_contracts ∨ cid = c.contract_id
    · rw [if_pos hex, if_pos (mem_extract_unique_contract_ids.mpr hex)]
    · rw [if_neg hex, if_neg (fun hmem =>
        hex (mem_extract_unique_contract_ids.mp hmem))]
  · rw [get_transaction_inputs_outputs]
    simp only [List.countP_append]
    have hgin : (generate_contract_inputs
        (extract_unique_contract_ids calls)).countP Input.isContractInput
        = (extract_unique_contract_ids calls).length := by
      rw [generate_contract_inputs, List.countP_map]
      have hc : (Input.isContractInput ∘ fun p : Nat × Nat =>
          Input.contract (0, p.1) 0 0 0 p.2) = fun _ => true := by
        funext p
        rfl
      rw [hc, List.countP_true, List.enum_length]
    have hgout : (generate_contract_outputs
        (extract_unique_contract_ids calls).length).countP Output.isContractOutput
        = (extract_unique_contract_ids calls).length := by
      rw [generate_contract_outputs, List.countP_map]
      have hc : (Output.isContractOutput ∘ fun idx => Output.contract idx 0 0)
          = fun _ => true := by
        funext i
        rfl
      rw [hc, List.countP_true, List.length_range]
    have hz1 : (generate_asset_change_outputs address
        (extract_unique_asset_ids asset_inputs base_asset_id)).countP
          Output.isContractOutput = 0 :=
      countP_zero_of_shapes fun o ho => hrest o
        (List.mem_append.mpr (Or.inl (List.mem_append.mpr (Or.inl ho))))
    have hz2 : (generate_custom_outputs calls).countP Output.isContractOutput = 0 :=
      countP_zero_of_shapes fun o ho => hrest o
        (List.mem_append.mpr (Or.inl (List.mem_append.mpr (Or.inr ho))))
    have hz3 : (extract_variable_outputs calls).countP Output.isContractOutput = 0 :=
      countP_zero_of_shapes fun o ho => hrest o (List.mem_append.mpr (Or.inr ho))
    rw [hgin, hgout,
      hres0 Input.isContractInput (fun r => rfl) (fun r c d => rfl),
      hz1, hz2, hz3]
  · rw [get_transaction_inputs_outputs]
    rw [List.append_assoc, List.append_assoc,
      List.take_left' (generate_contract_outputs_length _)]
  · intro o ho
    rw [get_transaction_inputs_outputs] at ho
    rw [List.append_assoc, List.append_assoc,
      List.drop_left' (generate_contract_outputs_length _)] at ho
    refine hrest o ?_
    rw [← List.append_assoc] at ho
    exact ho

/-- A call with a given primary contract id and external-contract list, used
by concrete examples. -/
def callWithContract (cid : Nat) (ext : List Nat) : ContractCall :=
  { contract_id := cid
    encoded_args := some fun _ => []
    encoded_selector := [0, 0, 0, 0, 0, 0, 0, 0]
    call_parameters := ⟨0, none, none⟩
    compute_custom_input_offset := false
    variable_outputs := []
    external_contracts := ext
    output_param := .unit
    is_payable := false
    custom_assets := [] }

theorem contract_inputs_outputs_spec_witness :
    (∀ cid, ((get_transaction_inputs_outputs
          [callWithContract 1 [], callWithContract 2 [], callWithContract 1 []]
          [] 0 0).1.countP (Input.isContractWithId cid))
        = if ∃ c ∈ [callWithContract 1 [], callWithContract 2 [],
              callWithContract 1 []],
            cid ∈ c.external_contracts ∨ cid = c.contract_id then 1 else 0)
    ∧ ((get_transaction_inputs_outputs
          [callWithContract 1 [], callWithContract 2 [], callWithContract 1 []]
          [] 0 0).1.countP Input.isContractInput
        = (get_transaction_inputs_outputs
          [callWithContract 1 [], callWithContract 2 [], callWithContract 1 []]
          [] 0 0).2.countP Output.isContractOutput) :=
  ⟨(contract_inputs_outputs_spec
      [callWithContract 1 [], callWithContract 2 [], callWithContract 1 []]
      [] 0 0 (by intro i hi; simp at hi) (by decide)).1,
   (contract_inputs_outputs_spec
      [callWithContract 1 [], callWithContract 2 [], callWithContract 1 []]
      [] 0 0 (by intro i hi; simp at hi) (by decide)).2.1⟩

/-- C10: the inputs list places the contract inputs first — the `i`-th one
carrying the synthetic zero-hash `UtxoId` with output index `i` — followed by
the supplied asset inputs in their given order; and the `i`-th contract
output (which, by construction, references input index `i`) occupies
position `i` of the outputs list. -/
theorem inputs_order_spec (calls : List ContractCall) (asset_inputs : List Input)
    (address base_asset_id : Nat) :
    ((get_transaction_inputs_outputs calls asset_inputs address base_asset_id).1
      = ((List.range (extract_unique_contract_ids calls).length).zip
          (extract_unique_contract_ids calls)).map
            (fun p => Input.contract (0, p.1) 0 0 0 p.2) ++ asset_inputs)
    ∧ ((get_transaction_inputs_outputs calls asset_inputs address
          base_asset_id).2.take (extract_unique_contract_ids calls).length
      = (List.range (extract_unique_contract_ids calls).length).map
          fun i => Output.contract i 0 0) := by
  constructor
  · rw [get_transaction_inputs_outputs, generate_contract_inputs,
      List.enum_eq_zip_range]
  · rw [get_transaction_inputs_outputs, List.append_assoc, List.append_assoc,
      List.take_left' (generate_contract_outputs_length _),
      generate_contract_outputs]

/-! ## Custom-asset outputs -/

theorem countP_custom_filterMap (m : List ((Nat × Option Nat) × Nat)) (a r : Nat) :
    (m.filterMap customOutputOf).countP (Output.isCoinFor r a)
      = m.countP fun g => decide (g.1 = (a, some r)) := by
  induction m with
  | nil => rfl
  | cons g t ih =>
      obtain ⟨⟨ga, grec⟩, gamt⟩ := g
      cases grec with
      | none =>
          rw [List.filterMap_cons]
          rw [show customOutputOf ((ga, none), gamt) = none from rfl]
          rw [ih, List.countP_cons]
          simp
      | some rr =>
          rw [List.filterMap_cons]
          rw [show customOutputOf ((ga, some rr), gamt) = some (.coin rr gamt ga) from rfl]
          rw [List.countP_cons, List.countP_cons, ih]
          by_cases h1 : rr = r <;> by_cases h2 : ga = a <;>
            simp [Output.isCoinFor, h1, h2]

/-- A call carrying only custom-asset transfers, used by concrete examples. -/
def customCall (transfers : List ((Nat × Option Nat) × Nat)) : ContractCall :=
  { contract_id := 0
    encoded_args := some fun _ => []
    encoded_selector := [0, 0, 0, 0, 0, 0, 0, 0]
    call_parameters := ⟨0, none, none⟩
    compute_custom_input_offset := false
    variable_outputs := []
    external_contracts := []
    output_param := .unit
    is_payable := false
    custom_assets := transfers }

/-- Calls whose shared custom-asset pair `(5, some 7)` appears in two
non-adjacent calls, with a different pair in between. -/
def c3calls : List ContractCall :=
  [customCall [((5, some 7), 100)], customCall [((6, some 8), 5)],
   customCall [((5, some 7), 300)]]

/-- C3 counterexample: the pair `(asset 5, recipient 7)` is transferred by
two non-adjacent calls (100 and 300, with a different pair in between), yet
the outputs contain TWO coin outputs for that pair — and no single merged
output of amount 400 — because `generate_custom_outputs` groups only
consecutive equal keys without sorting. -/
theorem custom_outputs_not_merged_counterexample :
    (∃ c ∈ c3calls, ∃ t ∈ c.custom_assets, t.1 = ((5 : Nat), some (7 : Nat)))
    ∧ ((get_transaction_inputs_outputs c3calls [] 0 0).2.countP
        (Output.isCoinFor 7 5)) = 2
    ∧ Output.coin 7 400 5 ∉ (get_transaction_inputs_outputs c3calls [] 0 0).2
    ∧ pairSum c3calls 5 7 = 400 := by decide

/-- C3 (amended): provided every distinct `(asset id, recipient)` pair's
transfers sit in one consecutive run of the calls' flattened transfer list
(equivalently, the consecutive-group keys are pairwise distinct — the code
groups only consecutive equal pairs), the outputs contain exactly one custom
coin output per distinct pair with a specified recipient, with amount the
sum over all calls for that exact pair; recipient-less transfers produce no
output.  Without that proviso one output is emitted per maximal consecutive
run. -/
theorem custom_outputs_spec (calls : List ContractCall) (asset_inputs : List Input)
    (address base_asset_id : Nat)
    (hruns : ((sumRuns (calls.flatMap fun c => c.custom_assets)).map Prod.fst).Nodup)
    (hvar : ∀ c ∈ calls, ∀ o ∈ c.variable_outputs, o.isVariableOutput = true) :
    (∀ a r, ((get_transaction_inputs_outputs calls asset_inputs address
          base_asset_id).2.countP (Output.isCoinFor r a))
        = if ∃ c ∈ calls, ∃ t ∈ c.custom_assets, t.1 = (a, some r) then 1 else 0)
    ∧ (∀ r amt a, Output.coin r amt a ∈
        (get_transaction_inputs_outputs calls asset_inputs address base_asset_id).2 →
        amt = pairSum calls a r
          ∧ ∃ c ∈ calls, ∃ t ∈ c.custom_assets, t.1 = (a, some r)) := by
  have hkeys : ∀ a r, ((a, some r) ∈ (calls.flatMap fun c =>
        c.custom_assets).map Prod.fst ↔
      ∃ c ∈ calls, ∃ t ∈ c.custom_assets, t.1 = (a, some r)) := by
    intro a r
    rw [List.mem_map]
    constructor
    · rintro ⟨t, ht, hfst⟩
      obtain ⟨c, hc, htc⟩ := List.mem_flatMap.mp ht
      exact ⟨c, hc, t, htc, hfst⟩
    · rintro ⟨c, hc, t, htc, hfst⟩
      exact ⟨t, List.mem_flatMap.mpr ⟨c, hc, htc⟩, hfst⟩
  refine ⟨fun a r => ?_, fun r amt a hmem => ?_⟩
  · rw [countP_outputs_decompose]
    have h1 : (generate_contract_outputs
        (extract_unique_contract_ids calls).length).countP (Output.isCoinFor r a) = 0 :=
      countP_zero_of_shapes fun o ho => by
        obtain ⟨i, _, rfl⟩ := mem_generate_contract_outputs ho
        rfl
    have h2 : (generate_asset_change_outputs address
        (extract_unique_asset_ids asset_inputs base_asset_id)).countP
          (Output.isCoinFor r a) = 0 :=
      countP_zero_of_shapes fun o ho => by
        obtain ⟨a2, _, rfl⟩ := mem_generate_asset_change_outputs ho
        rfl
    have h4 : (extract_variable_outputs calls).countP (Output.isCoinFor r a) = 0 :=
      countP_zero_of_shapes fun o ho => by
        obtain ⟨c, hc, hoc⟩ := mem_extract_variable_outputs ho
        obtain ⟨r2, amt2, a2, rfl⟩ := variableOutput_shape (hvar c hc _ hoc)
        rfl
    have h3 : (generate_custom_outputs calls).countP (Output.isCoinFor r a)
        = if ∃ c ∈ calls, ∃ t ∈ c.custom_assets, t.1 = (a, some r)
          then 1 else 0 := by
      rw [generate_custom_outputs, countP_custom_filterMap,
        countP_key_of_nodupKeys ((a, some r)) hruns]
      by_cases hex : ∃ c ∈ calls, ∃ t ∈ c.custom_assets, t.1 = (a, some r)
      · rw [if_pos hex, if_pos ((mem_keys_sumRuns _ _).mpr
          ((hkeys a r).mpr hex))]
      · rw [if_neg hex, if_neg (fun hmem =>
          hex ((hkeys a r).mp ((mem_keys_sumRuns _ _).mp hmem)))]
    rw [h1, h2, h3, h4]
    omega
  · rw [get_transaction_inputs_outputs] at hmem
    simp only [List.mem_append] at hmem
    rcases hmem with ((hmem | hmem) | hmem) | hmem
    · obtain ⟨i, _, heq⟩ := mem_generate_contract_outputs hmem
      exact absurd heq (by simp)
    · obtain ⟨a2, _, heq⟩ := mem_generate_asset_change_outputs hmem
      exact absurd heq (by simp)
    · obtain ⟨g, hg, r2, hrec, heq⟩ := mem_generate_custom_outputs hmem
      have hr2 : r2 = r := by
        injection heq.symm
      have hamt : g.2 = amt := by
        injection heq.symm
      have hga : g.1.1 = a := by
        injection heq.symm
      have hgkey : g.1 = (a, some r) := by
        ext1
        · exact hga
        · rw [hrec, hr2]
      have hgentry : ((a, some r), amt) ∈ sumRuns
          (calls.flatMap fun c => c.custom_assets) := by
        have : g = ((a, some r), amt) := by
          rw [← hgkey, ← hamt]
        exact this ▸ hg
      have hmention : ∃ c ∈ calls, ∃ t ∈ c.custom_assets, t.1 = (a, some r) :=
        (hkeys a r).mp ((mem_keys_sumRuns _ _).mp
          (List.mem_map.mpr ⟨((a, some r), amt), hgentry, rfl⟩))
      refine ⟨?_, hmention⟩
      have hks := keySum_of_nodupKeys hruns hgentry
      rw [keySum_sumRuns] at hks
      exact hks.symm
    · obtain ⟨c, hc, hoc⟩ := mem_extract_variable_outputs hmem
      obtain ⟨r2, amt2, a2, heq⟩ := variableOutput_shape (hvar c hc _ hoc)
      exact absurd heq (by simp)

/-- Calls whose shared custom-asset pair occurs in two adjacent calls: the
runs merge and the amounts sum, as the amended C3 requires. -/
def c3wcalls : List ContractCall :=
  [customCall [((5, some 7), 100)], customCall [((5, some 7), 300)]]

theorem custom_outputs_spec_witness :
    (∀ a r, ((get_transaction_inputs_outputs c3wcalls [] 0 0).2.countP
        (Output.isCoinFor r a))
      = if ∃ c ∈ c3wcalls, ∃ t ∈ c.custom_assets, t.1 = (a, some r) then 1 else 0)
    ∧ ∀ r amt a, Output.coin r amt a ∈
        (get_transaction_inputs_outputs c3wcalls [] 0 0).2 →
        amt = pairSum c3wcalls a r
          ∧ ∃ c ∈ c3wcalls, ∃ t ∈ c.custom_assets, t.1 = (a, some r) :=
  ⟨(custom_outputs_spec c3wcalls [] 0 0 (by decide) (by decide)).1,
   (custom_outputs_spec c3wcalls [] 0 0 (by decide) (by decide)).2⟩

/-! ## Script-data layout refinement -/

theorem buildScriptDataLoop_cons (d base : Nat) (c : ContractCall)
    (rest : List ContractCall) (acc : List Nat) (accp : List CallOpcodeParamsOffset)
    (resolve : Nat → List Nat) (hargs : c.encoded_args = some resolve) :
    ∃ seg, claimSegment base c (d + acc.length) = some seg ∧
      buildScriptDataLoop d base (c :: rest) acc accp
        = buildScriptDataLoop d base rest (acc ++ seg)
            (accp ++ [⟨d + acc.length + 40, d + acc.length, d + acc.length + 8,
              c.call_parameters.gas_forwarded.map fun _ =>
                d + acc.length + 88 + c.encoded_selector.length
                  + (resolve (d + acc.length + 88
                      + c.encoded_selector.length)).length⟩]) := by
  refine ⟨_, by rw [claimSegment, hargs], ?_⟩
  simp only [buildScriptDataLoop, hargs, claimSegment, WORD_SIZE]

theorem buildLoop_spec (d base : Nat) :
    ∀ (calls : List ContractCall) (acc : List Nat)
      (accp : List CallOpcodeParamsOffset) (sd : List Nat)
      (po : List CallOpcodeParamsOffset),
    buildScriptDataLoop d base calls acc accp = some (sd, po) →
    ∃ segs, claimSegments base calls (d + acc.length) = some segs
      ∧ sd = acc ++ segs.flatten
      ∧ ∃ po2, po = accp ++ po2
        ∧ List.Forall₂ (fun (c : ContractCall) (o : CallOpcodeParamsOffset) =>
            o.gas_forwarded_offset.isSome
              = c.call_parameters.gas_forwarded.isSome) calls po2 := by
  intro calls
  induction calls with
  | nil =>
      intro acc accp sd po h
      simp only [buildScriptDataLoop, Option.some.injEq, Prod.mk.injEq] at h
      refine ⟨[], rfl, ?_, [], ?_, List.Forall₂.nil⟩
      · simp [← h.1]
      · simp [← h.2]
  | cons c rest ih =>
      intro acc accp sd po h
      cases hargs : c.encoded_args with
      | none => simp [buildScriptDataLoop, hargs] at h
      | some resolve =>
          obtain ⟨seg, hseg, hstep⟩ :=
            buildScriptDataLoop_cons d base c rest acc accp resolve hargs
          rw [hstep] at h
          obtain ⟨segs, hsegs, hsd, po2, hpo, hfa⟩ := ih _ _ _ _ h
          have hlen : d + (acc ++ seg).length = d + acc.length + seg.length := by
            rw [List.length_append]
            omega
          rw [hlen] at hsegs
          refine ⟨seg :: segs, ?_, ?_, ?_⟩
          · simp only [claimSegments, hseg]
            rw [hsegs]
            rfl
          · rw [hsd, List.append_assoc, List.flatten_cons]
          · refine ⟨(⟨d + acc.length + 40, d + acc.length, d + acc.length + 8,
                c.call_parameters.gas_forwarded.map fun _ =>
                  d + acc.length + 88 + c.encoded_selector.length
                    + (resolve (d + acc.length + 88
                        + c.encoded_selector.length)).length⟩ :
                  CallOpcodeParamsOffset) :: po2, ?_, ?_⟩
            · rw [hpo, List.append_assoc]
              rfl
            · refine List.Forall₂.cons ?_ hfa
              cases c.call_parameters.gas_forwarded <;> rfl

/-- C2: whenever `build_script_data_from_contract_calls` succeeds, the
produced buffer is exactly the concatenation, in call order, of one segment
per call of the form `amount:u64be | asset_id:32B | contract_id:32B |
selector_offset:u64be | args_offset:u64be | selector_bytes | arg_bytes |
[gas:u64be]?` (the asset id defaulting to the base asset id; the selector
landing 88 bytes into its own segment), with each segment starting exactly
where the previous one ended; and `get_instructions` emits the per-call
instruction bytes in order followed by the single `ret(RegId::ONE)`
instruction. -/
theorem build_script_data_spec (calls : List ContractCall)
    (data_offset base_asset_id : Nat) (sd : List Nat)
    (po : List CallOpcodeParamsOffset)
    (h : build_script_data_from_contract_calls calls data_offset base_asset_id
      = some (sd, po)) :
    (∃ segs, claimSegments base_asset_id calls data_offset = some segs
      ∧ sd = segs.flatten)
    ∧ get_instructions calls po
      = (((calls.zip po).map fun co =>
          get_single_call_instructions co.2 co.1.output_param).flatten)
        ++ instrToBytes (.ret REG_ONE) := by
  rw [build_script_data_from_contract_calls] at h
  obtain ⟨segs, hsegs, hsd, po2, hpo, hfa⟩ := buildLoop_spec _ _ _ _ _ _ _ h
  rw [List.length_nil, Nat.add_zero] at hsegs
  refine ⟨⟨segs, hsegs, ?_⟩, rfl⟩
  rw [hsd, List.nil_append]

/-- Two calls (one forwarding gas) on which the layout refinement is
exercised concretely. -/
def c2calls : List ContractCall :=
  [exampleCall (some 1) 100,
    { exampleCall none 7 with
        call_parameters := ⟨7, none, some 5⟩,
        encoded_args := some fun o => [o % 256, 1] }]

theorem build_script_data_spec_witness :
    build_script_data_from_contract_calls c2calls 0 2
        = some ((buildScriptDataLoop 0 2 c2calls [] []).getD ([], []))
    ∧ (∃ segs, claimSegments 2 c2calls 0 = some segs
        ∧ ((buildScriptDataLoop 0 2 c2calls [] []).getD ([], [])).1 = segs.flatten) :=
  ⟨rfl,
   (build_script_data_spec c2calls 0 2 _ _ rfl).1⟩

/-! ## Instruction-length refinement -/

theorem get_single_call_instructions_length (off : CallOpcodeParamsOffset)
    (p : ParamType) :
    (get_single_call_instructions off p).length
      = if off.gas_forwarded_offset.isSome then 28 else 20 := by
  cases hgas : off.gas_forwarded_offset with
  | none =>
      simp [get_single_call_instructions, hgas, instrToBytes_length]
  | some g =>
      simp [get_single_call_instructions, hgas, instrToBytes_length]

/-- C8: the per-call instruction-byte length computed from placeholder
offsets (retaining only whether gas is forwarded) equals the length actually
emitted with the real offsets produced by the layout; consequently
`compute_calls_instructions_len` plus the 4-byte terminating return equals
the total length of `get_instructions`. -/
theorem compute_calls_instructions_len_spec (calls : List ContractCall)
    (data_offset base_asset_id : Nat) (sd : List Nat)
    (po : List CallOpcodeParamsOffset)
    (h : build_script_data_from_contract_calls calls data_offset base_asset_id
      = some (sd, po)) :
    List.Forall₂ (fun (c : ContractCall) (o : CallOpcodeParamsOffset) =>
        (get_single_call_instructions (placeholderOffsets c) c.output_param).length
          = (get_single_call_instructions o c.output_param).length) calls po
    ∧ compute_calls_instructions_len calls + 4 = (get_instructions calls po).length := by
  rw [build_script_data_from_contract_calls] at h
  obtain ⟨segs, hsegs, hsd, po2, hpo, hfa⟩ := buildLoop_spec _ _ _ _ _ _ _ h
  rw [List.nil_append] at hpo
  subst hpo
  have hlen : ∀ (cs : List ContractCall) (os : List CallOpcodeParamsOffset),
      List.Forall₂ (fun (c : ContractCall) (o : CallOpcodeParamsOffset) =>
        o.gas_forwarded_offset.isSome = c.call_parameters.gas_forwarded.isSome)
        cs os →
      List.Forall₂ (fun (c : ContractCall) (o : CallOpcodeParamsOffset) =>
        (get_single_call_instructions (placeholderOffsets c) c.output_param).length
          = (get_single_call_instructions o c.output_param).length) cs os
      ∧ compute_calls_instructions_len cs + 4 = (get_instructions cs os).length := by
    intro cs os hf
    induction hf with
    | nil =>
        refine ⟨List.Forall₂.nil, ?_⟩
        simp [compute_calls_instructions_len, get_instructions, instrToBytes_length]
    | cons hco hrest ih =>
        rename_i c o cs2 os2
        have hone : (get_single_call_instructions (placeholderOffsets c)
            c.output_param).length
            = (get_single_call_instructions o c.output_param).length := by
          rw [get_single_call_instructions_length, get_single_call_instructions_length,
            hco, placeholderOffsets]
          cases hg : c.call_parameters.gas_forwarded <;> simp [hg]
        refine ⟨List.Forall₂.cons hone ih.1, ?_⟩
        have htail := ih.2
        rw [compute_calls_instructions_len, get_instructions] at htail ⊢
        simp only [List.zip_cons_cons, List.map_cons, List.flatten_cons,
          List.sum_cons, List.length_append, instrToBytes_length] at htail ⊢
        omega
  exact hlen calls po hfa

theorem compute_calls_instructions_len_spec_witness :
    compute_calls_instructions_len c2calls + 4
      = (get_instructions c2calls
          ((buildScriptDataLoop 0 2 c2calls [] []).getD ([], [])).2).length :=
  (compute_calls_instructions_len_spec c2calls 0 2 _ _ rfl).2

end FuelsCallUtils
